import Mathlib

/-!
Shallow embedding of `src/qml/energylog.js` (harbour-batterylog).

Conventions of the embedding:
* Timestamps are JavaScript `Date` values measured in milliseconds,
  modelled as rationals (`ℚ`); `Date` subtraction, `setSeconds(+T)` and
  `setMinutes(+m)` become `-`, `+ T * 1000` and `+ m * 60000`.
* `energy` is a JavaScript number, modelled as `ℚ`.
* The SQL table `energy_log` is modelled as a list of rows; `SELECT ... ORDER BY
  time ASC` is modelled as filter-then-sort, `INSERT` respects the `time`
  PRIMARY KEY (a key collision affects zero rows and leaves the table
  unchanged, which is the failure mode the source itself tests via
  `result.rowsAffected === 0`), and `UPDATE ... SET time` rewrites every row
  matching the `WHERE` clause.
* `getDatabase().transaction(cb)` runs `cb` and discards `cb`'s return value;
  this is the semantics of the QML `transaction` call that the source relies
  on (its callbacks contain `return false` / `return 0` statements whose
  values never reach the enclosing function).
* The module-level mutable state (`lastTime`, `lastEnergy`, `lastCharging`,
  `lastActive`, `lastEvent`) is modelled as an optional cache record: all five
  variables are `undefined` together before the first successful insert, and
  the source's guards (`NaN` comparisons, `undefined === x`) make both the
  gap branch and the merge branch unreachable in that situation, so the
  optional record is faithful.
* `timeoutIntervalInSeconds` (set once by `init`) is threaded as a parameter
  `T`; `console.log` output is collected in a list of strings.
-/

namespace EnergyLog

/-- One persisted row of the `energy_log` table
(`time DATE PRIMARY KEY, energy BIGINT, charging SMALLINT, active SMALLINT, event TEXT`). -/
structure Row where
  time : ℚ
  energy : ℚ
  charging : Bool
  active : Bool
  event : String
deriving DecidableEq, Repr

instance : Inhabited Row := ⟨⟨0, 0, false, false, ""⟩⟩

/-- The table contents. -/
abbrev Db := List Row

/-- Row ordering used by every `ORDER BY time ASC` clause. -/
def rowLE (a b : Row) : Prop := a.time ≤ b.time

instance : DecidableRel rowLE := fun a b => inferInstanceAs (Decidable (a.time ≤ b.time))

instance : IsTotal Row rowLE := ⟨fun a b => le_total a.time b.time⟩

instance : IsTrans Row rowLE := ⟨fun _ _ _ hab hbc => le_trans hab hbc⟩

/-- `SELECT ... FROM energy_log WHERE p ORDER BY time ASC`. -/
def selectAsc (db : Db) (p : Row → Bool) : List Row :=
  (db.filter p).insertionSort rowLE

/-- `INSERT INTO energy_log VALUES (?,?,?,?,?)` with `time` as PRIMARY KEY:
returns the new table and `rowsAffected` (0 on a key collision). -/
def sqlInsert (db : Db) (r : Row) : Db × Nat :=
  if db.any (fun x => decide (x.time = r.time)) then (db, 0) else (db ++ [r], 1)

/-- `UPDATE energy_log SET time = newT WHERE time = oldT`:
returns the new table and `rowsAffected`. -/
def sqlUpdateTime (db : Db) (oldT newT : ℚ) : Db × Nat :=
  (db.map (fun r => if r.time = oldT then { r with time := newT } else r),
   (db.filter (fun r => decide (r.time = oldT))).length)

/-- `getDatabase().transaction(cb)`: runs the callback and discards its return
value (the source's `return false` / `return 0` inside callbacks never reach
the enclosing function). -/
def transactionRun {α : Type} (db : Db) (cb : Db → Db × Option α) : Db :=
  (cb db).1

/-- `addEntry(time, energy, charging, active, event)`, energylog.js lines
107-118.  The callback's `return false` (on `rowsAffected === 0`) is
discarded by `transaction`, so the function always reaches its final
`return true`. -/
def addEntry (db : Db) (r : Row) : Db × Bool :=
  let db1 := transactionRun db (fun tx =>
    let res := sqlInsert tx r
    (res.1, if res.2 = 0 then some false else none))
  (db1, true)

/-- The in-memory last-sample cache (`lastTime`, `lastEnergy`, `lastCharging`,
`lastActive`, `lastEvent`). -/
structure Cache where
  lastTime : ℚ
  lastEnergy : ℚ
  lastCharging : Bool
  lastActive : Bool
  lastEvent : String
deriving DecidableEq, Repr

/-- Whole-store state: table plus the in-memory cache (absent before the
first successful insert, i.e. after process start). -/
structure LogState where
  db : Db
  cache : Option Cache
deriving DecidableEq, Repr

/-- Return value of `addOrUpdateEntry`: the sentinel `0` or `currentTime`. -/
inductive RetVal where
  | zero : RetVal
  | time (t : ℚ) : RetVal
deriving DecidableEq, Repr

/-- Result of one `addOrUpdateEntry` call: new state, return value, and the
`console.log` messages emitted. -/
structure CallOut where
  st : LogState
  ret : RetVal
  log : List String
deriving DecidableEq, Repr

/-- `addOrUpdateEntry(energy, charging, active, event)`, energylog.js lines
55-103, with `currentTime` (= `Date.now()`) passed explicitly as `now` and
`timeoutIntervalInSeconds` as `T`.

The shared tail (lines 90-102: insert a new row, store the values for the
next call) is `insertNew`.  In the merge branch the source's
`return 0` on `rowsAffected === 0` sits inside the transaction callback and
is discarded, so lines 85-86 (`lastTime = currentTime; return 0`) run
regardless of whether the `UPDATE` matched a row. -/
def addOrUpdateEntry (T : ℚ) (s : LogState) (energy : ℚ) (charging active : Bool)
    (event : String) (now : ℚ) : CallOut :=
  let insertNew : Db → CallOut := fun db =>
    let res := addEntry db ⟨now, energy, charging, active, event⟩
    if res.2 = false then
      ⟨⟨res.1, s.cache⟩, .zero, ["Failed to add new energy_log entry."]⟩
    else
      ⟨⟨res.1, some ⟨now, energy, charging, active, event⟩⟩, .time now, []⟩
  match s.cache with
  | none => insertNew s.db
  | some c =>
    if active = true ∧ event ≠ "Start" ∧ (now - c.lastTime) / 1000 > T then
      let missedTime := c.lastTime + T * 1000
      let res := addEntry s.db ⟨missedTime, c.lastEnergy, c.lastCharging, false, ""⟩
      if res.2 = false then
        ⟨⟨res.1, s.cache⟩, .zero, ["Failed to add missing energy_log entry."]⟩
      else insertNew res.1
    else if c.lastEnergy = energy ∧ c.lastCharging = charging ∧ c.lastActive = active
        ∧ c.lastEvent = event then
      let upd := sqlUpdateTime s.db c.lastTime now
      let msgs := if upd.2 = 0 then ["Failed to update previous energy_log entry."] else []
      ⟨⟨upd.1, some { c with lastTime := now }⟩, .zero, msgs⟩
    else insertNew s.db

/-- `reset()`, energylog.js lines 45-51: deletes every row; the in-memory
cache variables are not touched. -/
def reset (s : LogState) : LogState :=
  ⟨[], s.cache⟩

/-- One sampling call fed to `addOrUpdateEntry` (its arguments plus the
`Date.now()` value observed during the call). -/
structure Call where
  energy : ℚ
  charging : Bool
  active : Bool
  event : String
  now : ℚ
deriving DecidableEq, Repr

/-- State transition of one call (return value and log discarded). -/
def step (T : ℚ) (s : LogState) (c : Call) : LogState :=
  (addOrUpdateEntry T s c.energy c.charging c.active c.event c.now).st

/-- Run a sequence of `addOrUpdateEntry` calls from the empty store with an
empty cache (process start). -/
def runCalls (T : ℚ) (calls : List Call) : LogState :=
  calls.foldl (step T) ⟨[], none⟩

/-- `convertItemToEntry(item, currentTime)`, energylog.js lines 189-199:
shifts the stored time by the caller's timezone offset (in minutes). -/
def convertItemToEntry (tzMin : ℚ) (r : Row) : Row :=
  { r with time := r.time + tzMin * 60000 }

/-- Rows strictly inside the query window, ascending
(`WHERE time > ? AND time < ? ORDER BY time ASC`). -/
def windowRows (db : Db) (startTime endTime : ℚ) : List Row :=
  selectAsc db (fun r => decide (startTime < r.time) && decide (r.time < endTime))

/-- Rows strictly after `t`, ascending (`WHERE time > ? ORDER BY time ASC`). -/
def rowsAfter (db : Db) (t : ℚ) : List Row :=
  selectAsc db (fun r => decide (t < r.time))

/-- Rows strictly before `t`, ascending (`WHERE time < ?`; the source orders
DESC LIMIT 1, i.e. takes the last element of this list). -/
def rowsBefore (db : Db) (t : ℚ) : List Row :=
  selectAsc db (fun r => decide (r.time < t))

/-- `getLatestEntries(dayCount, dayOffset)`, energylog.js lines 122-187, with
the window bounds (`startTime`, `endTime`, computed there from day counts)
passed explicitly.  Note two facts of the source kept faithfully:
* boundary interpolation only runs when more than one row lies strictly
  inside the window;
* line 170 guards the start-boundary step with `startEntry !== "Start"`,
  comparing the whole entry value (an array) with a string — that comparison
  is always true, so the guard is the constant `True` here. -/
def getLatestEntries (db : Db) (startTime endTime tzMin : ℚ) : List Row :=
  let entries := (windowRows db startTime endTime).map (convertItemToEntry tzMin)
  if entries.length > 1 then
    -- add event AFTER end (lines 144-163)
    let entries1 :=
      match entries.getLast? with
      | none => entries
      | some endEntry =>
        if endEntry.event ≠ "Stop" then
          match (rowsAfter db endEntry.time).head? with
          | none => entries
          | some nxtRow =>
            let entry := convertItemToEntry tzMin nxtRow
            let s := (endTime - endEntry.time) / (entry.time - endEntry.time)
            entries ++ [{ entry with
              energy := endEntry.energy * (1 - s) + entry.energy * s,
              time := endTime }]
        else entries
    -- add event BEFORE start (lines 165-184)
    match entries1.head? with
    | none => entries1
    | some startEntry =>
      if True then
        match (rowsBefore db startEntry.time).getLast? with
        | none => entries1
        | some prevRow =>
          let entry := convertItemToEntry tzMin prevRow
          let s := (startTime - startEntry.time) / (entry.time - startEntry.time)
          { entry with
            energy := startEntry.energy * (1 - s) + entry.energy * s,
            time := startTime } :: entries1
      else entries1
  else entries

/-- One element of the list built by `getLatestEvents`
(`[time, energy, charging, event]`). -/
structure EventEntry where
  time : ℚ
  energy : ℚ
  charging : Bool
  event : String
deriving DecidableEq, Repr

/-- The loop body of `getLatestEvents` (lines 215-227): push a row only when
its `event` differs from the previous pushed one; the local `lastEvent`
starts `undefined`. -/
def dedupEvents (tzMin : ℚ) : Option String → List Row → List EventEntry
  | _, [] => []
  | lastEv, r :: rest =>
    if some r.event ≠ lastEv then
      ⟨r.time + tzMin * 60000, r.energy, r.charging, r.event⟩ ::
        dedupEvents tzMin (some r.event) rest
    else
      dedupEvents tzMin lastEv rest

/-- Matching rows of `getLatestEvents`
(`WHERE time > ? AND event != '' AND event != 'Stop' ORDER BY time ASC LIMIT 400`). -/
def eventRows (db : Db) (startTime : ℚ) : List Row :=
  (selectAsc db (fun r =>
    decide (startTime < r.time) && (r.event != "") && (r.event != "Stop"))).take 400

/-- `getLatestEvents(dayCount)`, energylog.js lines 203-230, with `startTime`
(computed there as `now` minus `dayCount` days) passed explicitly. -/
def getLatestEvents (db : Db) (startTime tzMin : ℚ) : List EventEntry :=
  dedupEvents tzMin none (eventRows db startTime)

/-- JavaScript `Math.round` (round half towards positive infinity). -/
def jsRound (q : ℚ) : ℚ :=
  ((⌊q + 1 / 2⌋ : ℤ) : ℚ)

/-- Matching rows of `getAveragePower`
(`WHERE time > ? and charging = ? ORDER BY time ASC LIMIT 1000`, with `false`
bound to the placeholder). -/
def dischargeRows (db : Db) (startTime : ℚ) : List Row :=
  (selectAsc db (fun r => decide (startTime < r.time) && (r.charging == false))).take 1000

/-- The loop body of `getAveragePower` (lines 249-263): state is
`(sum, duration, previous row)`. -/
def apStep (acc : ℚ × ℚ × Row) (cur : Row) : ℚ × ℚ × Row :=
  if cur.energy ≤ acc.2.2.energy ∧ acc.2.2.event ≠ "Stop" then
    (acc.1 + (acc.2.2.energy - cur.energy), acc.2.1 + (cur.time - acc.2.2.time), cur)
  else
    (acc.1, acc.2.1, cur)

/-- `getAveragePower(dayCount)`, energylog.js lines 234-271, with `startTime`
passed explicitly.  `duration` is in milliseconds, hence the `/ 1000`. -/
def getAveragePower (db : Db) (startTime : ℚ) : ℚ :=
  match dischargeRows db startTime with
  | [] => 0
  | [_] => 0
  | r0 :: rest =>
    let acc := rest.foldl apStep (0, 0, r0)
    if acc.1 > 0 then jsRound ((acc.1 * 3600) / (acc.2.1 / 1000)) else 0

/-- Declarative sum of `prev.energy - cur.energy` over consecutive pairs that
the `getAveragePower` loop accepts (`cur.energy <= prev.energy` and
`prev.event != "Stop"`); used to state claim C8 the way the specification
phrases it. -/
def specSum : List Row → ℚ
  | p :: q :: rest =>
    (if q.energy ≤ p.energy ∧ p.event ≠ "Stop" then p.energy - q.energy else 0) +
      specSum (q :: rest)
  | _ => 0

/-- Declarative sum of `cur.time - prev.time` over the accepted pairs;
companion of `specSum`. -/
def specDur : List Row → ℚ
  | p :: q :: rest =>
    (if q.energy ≤ p.energy ∧ p.event ≠ "Stop" then q.time - p.time else 0) +
      specDur (q :: rest)
  | _ => 0

/-- Distinctness invariant used for the uniqueness claim: the stored `time`
values are pairwise distinct and all bounded by `b`. -/
def InvBelow (s : LogState) (b : ℚ) : Prop :=
  ((s.db.map Row.time).Pairwise (· ≠ ·)) ∧ ∀ r ∈ s.db, r.time ≤ b

/-! ## General lemmas about the embedding -/

theorem convertItemToEntry_zero (r : Row) : convertItemToEntry 0 r = r := by
  cases r
  simp [convertItemToEntry]

theorem map_convertItemToEntry_zero (l : List Row) :
    l.map (convertItemToEntry 0) = l := by
  have h : convertItemToEntry 0 = id := funext convertItemToEntry_zero
  rw [h, List.map_id]

theorem mem_selectAsc {db : Db} {p : Row → Bool} {r : Row} :
    r ∈ selectAsc db p ↔ r ∈ db ∧ p r = true := by
  rw [selectAsc, List.mem_insertionSort, List.mem_filter]

theorem sorted_selectAsc (db : Db) (p : Row → Bool) :
    (selectAsc db p).Sorted rowLE :=
  List.sorted_insertionSort rowLE _

theorem selectAsc_eq_nil {db : Db} {p : Row → Bool}
    (h : ∀ r ∈ db, p r = false) : selectAsc db p = [] := by
  rw [selectAsc, List.filter_eq_nil_iff.2 (by intro a ha; simp [h a ha])]
  rfl

theorem addEntry_fst (db : Db) (r : Row) : (addEntry db r).1 = (sqlInsert db r).1 := rfl

theorem addEntry_snd (db : Db) (r : Row) : (addEntry db r).2 = true := rfl

theorem dedupEvents_mem (tzMin : ℚ) :
    ∀ (rows : List Row) (le : Option String) (e : EventEntry),
      e ∈ dedupEvents tzMin le rows →
      ∃ r ∈ rows, e = ⟨r.time + tzMin * 60000, r.energy, r.charging, r.event⟩
  | [], le, e, h => by simp [dedupEvents] at h
  | r :: rest, le, e, h => by
    simp only [dedupEvents] at h
    split at h
    · rcases List.mem_cons.1 h with he | he
      · exact ⟨r, List.mem_cons_self r rest, he⟩
      · rcases dedupEvents_mem tzMin rest (some r.event) e he with ⟨r1, hr1, he1⟩
        exact ⟨r1, List.mem_cons_of_mem r hr1, he1⟩
    · rcases dedupEvents_mem tzMin rest le e h with ⟨r1, hr1, he1⟩
      exact ⟨r1, List.mem_cons_of_mem r hr1, he1⟩

theorem dedupEvents_length (tzMin : ℚ) :
    ∀ (rows : List Row) (le : Option String),
      (dedupEvents tzMin le rows).length ≤ rows.length
  | [], _ => by simp [dedupEvents]
  | r :: rest, le => by
    simp only [dedupEvents]
    split
    · simpa using dedupEvents_length tzMin rest (some r.event)
    · exact le_trans (dedupEvents_length tzMin rest le) (Nat.le_succ _)

theorem dedupEvents_head_event (tzMin : ℚ) :
    ∀ (rows : List Row) (le : Option String) (e : EventEntry),
      (dedupEvents tzMin le rows).head? = some e → some e.event ≠ le
  | [], le, e, h => by simp [dedupEvents] at h
  | r :: rest, le, e, h => by
    simp only [dedupEvents] at h
    split at h
    · rename_i hcond
      simp only [List.head?_cons, Option.some.injEq] at h
      subst h
      exact hcond
    · exact dedupEvents_head_event tzMin rest le e h

theorem dedupEvents_chain_event (tzMin : ℚ) :
    ∀ (rows : List Row) (le : Option String),
      List.Chain' (fun a b : EventEntry => a.event ≠ b.event) (dedupEvents tzMin le rows)
  | [], _ => by simp [dedupEvents]
  | r :: rest, le => by
    simp only [dedupEvents]
    split
    · rw [List.chain'_cons']
      refine ⟨?_, dedupEvents_chain_event tzMin rest (some r.event)⟩
      intro y hy
      have hne := dedupEvents_head_event tzMin rest (some r.event) y (Option.mem_def.1 hy)
      intro hEq
      exact hne (by simp only [Option.some.injEq]; exact (by simpa using hEq.symm))
    · exact dedupEvents_chain_event tzMin rest le

theorem dedupEvents_pairwise_time (tzMin : ℚ) :
    ∀ (rows : List Row) (le : Option String), rows.Pairwise rowLE →
      (dedupEvents tzMin le rows).Pairwise (fun a b : EventEntry => a.time ≤ b.time)
  | [], _, _ => by simp [dedupEvents]
  | r :: rest, le, hp => by
    rcases List.pairwise_cons.1 hp with ⟨hr, hrest⟩
    simp only [dedupEvents]
    split
    · rw [List.pairwise_cons]
      refine ⟨?_, dedupEvents_pairwise_time tzMin rest (some r.event) hrest⟩
      intro e he
      rcases dedupEvents_mem tzMin rest (some r.event) e he with ⟨r1, hr1, rfl⟩
      have hle : r.time ≤ r1.time := hr r1 hr1
      simp only []
      linarith
    · exact dedupEvents_pairwise_time tzMin rest le hrest

theorem eventRows_mem {db : Db} {startTime : ℚ} {r : Row}
    (h : r ∈ eventRows db startTime) :
    r ∈ db ∧ startTime < r.time ∧ r.event ≠ "" ∧ r.event ≠ "Stop" := by
  have h1 := List.mem_of_mem_take h
  rcases mem_selectAsc.1 h1 with ⟨hdb, hp⟩
  simp only [Bool.and_eq_true, decide_eq_true_eq, bne_iff_ne, ne_eq] at hp
  exact ⟨hdb, hp.1.1, hp.1.2, hp.2⟩

theorem eventRows_pairwise (db : Db) (startTime : ℚ) :
    (eventRows db startTime).Pairwise rowLE :=
  List.Pairwise.sublist (List.take_sublist _ _) (sorted_selectAsc db _)

theorem foldl_apStep_spec :
    ∀ (rest : List Row) (r0 : Row) (s d : ℚ),
      (rest.foldl apStep (s, d, r0)).1 = s + specSum (r0 :: rest) ∧
      (rest.foldl apStep (s, d, r0)).2.1 = d + specDur (r0 :: rest)
  | [], r0, s, d => by simp [specSum, specDur]
  | q :: rest, r0, s, d => by
    have hSum : specSum (r0 :: q :: rest) =
        (if q.energy ≤ r0.energy ∧ r0.event ≠ "Stop" then r0.energy - q.energy else 0) +
          specSum (q :: rest) := by
      simp [specSum]
    have hDur : specDur (r0 :: q :: rest) =
        (if q.energy ≤ r0.energy ∧ r0.event ≠ "Stop" then q.time - r0.time else 0) +
          specDur (q :: rest) := by
      simp [specDur]
    by_cases hc : q.energy ≤ r0.energy ∧ r0.event ≠ "Stop"
    · have hstep : apStep (s, d, r0) q =
          (s + (r0.energy - q.energy), d + (q.time - r0.time), q) := by
        simp [apStep, hc]
      rcases foldl_apStep_spec rest q (s + (r0.energy - q.energy)) (d + (q.time - r0.time))
        with ⟨h1, h2⟩
      rw [List.foldl_cons, hstep]
      exact ⟨by rw [h1, hSum, if_pos hc]; ring, by rw [h2, hDur, if_pos hc]; ring⟩
    · have hstep : apStep (s, d, r0) q = (s, d, q) := by
        simp [apStep, hc]
      rcases foldl_apStep_spec rest q s d with ⟨h1, h2⟩
      rw [List.foldl_cons, hstep]
      exact ⟨by rw [h1, hSum, if_neg hc, zero_add], by rw [h2, hDur, if_neg hc, zero_add]⟩

/-! ## Claim C10 -/

/-- Claim C10: `addEntry` returns `true` on every call (the
`rowsAffected === 0` check and its `return false` sit inside the transaction
callback, whose return value is discarded), so the `!addEntry(...)` failure
branches of `addOrUpdateEntry` are unreachable: neither of their log
messages can ever be emitted — the only possible log output of a call is
empty or the merge-update failure message. -/
theorem addEntry_always_true_failure_branches_unreachable :
    (∀ (db : Db) (r : Row), (addEntry db r).2 = true) ∧
    (∀ (T : ℚ) (s : LogState) (energy : ℚ) (charging active : Bool)
        (event : String) (now : ℚ),
      (addOrUpdateEntry T s energy charging active event now).log ∈
        ([[], ["Failed to update previous energy_log entry."]] : List (List String))) := by
  constructor
  · intro db r
    rfl
  · intro T s energy charging active event now
    obtain ⟨db, _ | c⟩ := s
    · simp [addOrUpdateEntry, addEntry]
    · simp only [addOrUpdateEntry, addEntry, transactionRun]
      split
      · simp
      · split
        · split <;> simp
        · simp

/-! ## Claim C4 -/

/-- Claim C4 counterexample: for a store holding exactly rows at `t=0`
(energy 100) and `t=100` (energy 0), the window query over `[25,75]` returns
the empty list — not the two interpolated rows the claim asserts. -/
theorem windowedSamples_both_outside_empty :
    getLatestEntries [⟨0, 100, false, false, ""⟩, ⟨100, 0, false, false, ""⟩] 25 75 0 = [] := by
  norm_num [getLatestEntries, windowRows, selectAsc, List.filter, List.insertionSort,
    List.orderedInsert, rowLE, convertItemToEntry]

/-- Claim C4 (amended): when fewer than two rows lie strictly inside the
window, `getLatestEntries` performs no boundary interpolation at all and
returns exactly the fetched in-window rows (so the claim's scenario, where
no row is strictly inside `[25,75]`, returns the empty list). -/
theorem windowedSamples_no_interpolation_below_two_rows
    (db : Db) (startTime endTime tzMin : ℚ)
    (h : (windowRows db startTime endTime).length ≤ 1) :
    getLatestEntries db startTime endTime tzMin =
      (windowRows db startTime endTime).map (convertItemToEntry tzMin) := by
  unfold getLatestEntries
  rw [if_neg]
  simp only [List.length_map]
  omega

/-- Concrete instance of the amended claim C4 at the claim's own store and
window. -/
theorem windowedSamples_no_interpolation_below_two_rows_witness :
    getLatestEntries [⟨0, 100, false, false, ""⟩, ⟨100, 0, false, false, ""⟩] 25 75 0 =
      (windowRows [⟨0, 100, false, false, ""⟩, ⟨100, 0, false, false, ""⟩] 25 75).map
        (convertItemToEntry 0) :=
  windowedSamples_no_interpolation_below_two_rows _ 25 75 0 (by
    norm_num [windowRows, selectAsc, List.filter])

/-! ## Claim C5 -/

/-- Claim C5 evaluation at the failing input: the first in-window row (t=10)
has event "Start", yet a start-boundary sample (t=8, energy 68, interpolated
towards the preceding row at t=5) is still prepended, because line 170 of
energylog.js compares the whole entry value — not its event field — with
"Start", which is always true. -/
theorem startBoundary_prepended_despite_start_event :
    getLatestEntries [⟨5, 50, false, false, ""⟩, ⟨10, 80, false, true, "Start"⟩,
        ⟨20, 70, false, true, ""⟩] 8 30 0 =
      [⟨8, 68, false, false, ""⟩, ⟨10, 80, false, true, "Start"⟩,
        ⟨20, 70, false, true, ""⟩] := by
  norm_num [getLatestEntries, windowRows, rowsAfter, rowsBefore, selectAsc, List.filter,
    List.insertionSort, List.orderedInsert, rowLE, convertItemToEntry]

/-! ## Claim C3 -/

/-- Claim C3 evaluation at the failing input: starting from the empty store,
one sample is recorded at t=1000 (insert succeeds, cache set), `reset`
deletes every row but leaves the cache, and an identical sample at t=2000
takes the merge branch, whose `UPDATE` affects zero rows.  The failure is
logged, yet the cache is still advanced from `lastTime = 1000` to
`lastTime = 2000` — the cache is not left unchanged on a failed update. -/
theorem mergeUpdateFailure_still_advances_cache :
    (reset (addOrUpdateEntry 60 ⟨[], none⟩ 50 false false "" 1000).st).cache =
      some ⟨1000, 50, false, false, ""⟩ ∧
    (addOrUpdateEntry 60 (reset (addOrUpdateEntry 60 ⟨[], none⟩ 50 false false "" 1000).st)
        50 false false "" 2000).log = ["Failed to update previous energy_log entry."] ∧
    (addOrUpdateEntry 60 (reset (addOrUpdateEntry 60 ⟨[], none⟩ 50 false false "" 1000).st)
        50 false false "" 2000).st.cache = some ⟨2000, 50, false, false, ""⟩ ∧
    (addOrUpdateEntry 60 (reset (addOrUpdateEntry 60 ⟨[], none⟩ 50 false false "" 1000).st)
        50 false false "" 2000).ret = RetVal.zero := by
  norm_num [addOrUpdateEntry, addEntry, transactionRun, sqlInsert, sqlUpdateTime, reset]

/-! ## Claim C1 -/

/-- Claim C1: merge idempotence of ingestion.  If the cache holds
`(t0, energy, charging, active, event)` and `addOrUpdateEntry` is called
again with the identical tuple and the gap-detection case does not apply,
then no new row is created: every row whose time is `t0` has its time
updated in place to `now`, the call returns the sentinel `0`, and the cache
tracks `now`.  Moreover two immediately successive identical calls from the
empty store leave exactly one persisted row, whose time is the second call's
`now`. -/
theorem recordSample_merge_idempotent
    (T t0 energy now : ℚ) (db : Db) (charging active : Bool) (event : String)
    (hgap : ¬(active = true ∧ event ≠ "Start" ∧ (now - t0) / 1000 > T)) :
    (addOrUpdateEntry T ⟨db, some ⟨t0, energy, charging, active, event⟩⟩
        energy charging active event now).st.db =
      db.map (fun r => if r.time = t0 then { r with time := now } else r) ∧
    (addOrUpdateEntry T ⟨db, some ⟨t0, energy, charging, active, event⟩⟩
        energy charging active event now).ret = RetVal.zero ∧
    (addOrUpdateEntry T ⟨db, some ⟨t0, energy, charging, active, event⟩⟩
        energy charging active event now).st.cache =
      some ⟨now, energy, charging, active, event⟩ ∧
    (addOrUpdateEntry T (addOrUpdateEntry T ⟨[], none⟩
        energy charging active event t0).st energy charging active event now).st.db =
      [⟨now, energy, charging, active, event⟩] := by
  refine ⟨?_, ?_, ?_, ?_⟩ <;>
    simp [addOrUpdateEntry, addEntry, transactionRun, sqlInsert, sqlUpdateTime, hgap]

/-- Concrete instance of claim C1: cache `(1000, 50, discharging, standby,
periodic)`, identical call at `now = 2000`, no gap. -/
theorem recordSample_merge_idempotent_witness :
    (addOrUpdateEntry 60 ⟨[⟨1000, 50, false, false, ""⟩], some ⟨1000, 50, false, false, ""⟩⟩
        50 false false "" 2000).st.db =
      [⟨1000, 50, false, false, ""⟩].map
        (fun r => if r.time = 1000 then { r with time := 2000 } else r) ∧
    (addOrUpdateEntry 60 ⟨[⟨1000, 50, false, false, ""⟩], some ⟨1000, 50, false, false, ""⟩⟩
        50 false false "" 2000).ret = RetVal.zero ∧
    (addOrUpdateEntry 60 ⟨[⟨1000, 50, false, false, ""⟩], some ⟨1000, 50, false, false, ""⟩⟩
        50 false false "" 2000).st.cache = some ⟨2000, 50, false, false, ""⟩ ∧
    (addOrUpdateEntry 60 (addOrUpdateEntry 60 ⟨[], none⟩ 50 false false "" 1000).st
        50 false false "" 2000).st.db = [⟨2000, 50, false, false, ""⟩] :=
  recordSample_merge_idempotent 60 1000 50 2000 [⟨1000, 50, false, false, ""⟩]
    false false "" (by simp)

/-! ## Claim C2 -/

/-- Claim C2: gap back-fill.  With cache `(t0, e0, c0, a0, ev0)`, a call
`(e1, c1, active := true, ev, now)` where `ev ≠ "Start"` and the elapsed time
exceeds the timeout `T` inserts exactly two new rows — the synthetic standby
row `(t0 + T·1000, e0, c0, false, "")` followed by the sample row
`(now, e1, c1, true, ev)` — returns `now`, and leaves the cache at
`(now, e1, c1, true, ev)`.  The two freshness hypotheses say the two insert
keys are unused, which is what makes the inserts succeed. -/
theorem recordSample_gap_backfill
    (T t0 e0 e1 now : ℚ) (c0 c1 a0 : Bool) (ev0 ev : String) (db : Db)
    (hev : ev ≠ "Start")
    (hgap : (now - t0) / 1000 > T)
    (hfresh1 : ∀ r ∈ db, r.time ≠ t0 + T * 1000)
    (hfresh2 : ∀ r ∈ db, r.time ≠ now) :
    addOrUpdateEntry T ⟨db, some ⟨t0, e0, c0, a0, ev0⟩⟩ e1 c1 true ev now =
      ⟨⟨db ++ [⟨t0 + T * 1000, e0, c0, false, ""⟩, ⟨now, e1, c1, true, ev⟩],
        some ⟨now, e1, c1, true, ev⟩⟩, RetVal.time now, []⟩ := by
  have hbf : t0 + T * 1000 < now := by
    rw [gt_iff_lt, lt_div_iff₀ (by norm_num : (0:ℚ) < 1000)] at hgap
    linarith
  have hnotex1 : ¬ ∃ x ∈ db, x.time = t0 + T * 1000 := by
    push_neg
    exact hfresh1
  have hnotex2 : ¬ ∃ x ∈ db, x.time = now := by
    push_neg
    exact hfresh2
  have hne : t0 + T * 1000 ≠ now := ne_of_lt hbf
  simp [addOrUpdateEntry, addEntry, transactionRun, sqlInsert, hev, hgap,
    hnotex1, hnotex2, hne]

/-- Concrete instance of claim C2 (the claim's own "in particular" case):
cache `(0, 90, discharging, active, "")`, timeout 10 s, call
`(80, discharging, active, "Foo")` at `now = 2·T` seconds = 20000 ms. -/
theorem recordSample_gap_backfill_witness :
    addOrUpdateEntry 10 ⟨[⟨0, 90, false, true, ""⟩], some ⟨0, 90, false, true, ""⟩⟩
        80 false true "Foo" 20000 =
      ⟨⟨[⟨0, 90, false, true, ""⟩] ++
          [⟨0 + 10 * 1000, 90, false, false, ""⟩, ⟨20000, 80, false, true, "Foo"⟩],
        some ⟨20000, 80, false, true, "Foo"⟩⟩, RetVal.time 20000, []⟩ :=
  recordSample_gap_backfill 10 0 90 80 20000 false false true "" "Foo"
    [⟨0, 90, false, true, ""⟩] (by decide) (by norm_num)
    (by intro r hr; simp only [List.mem_singleton] at hr; subst hr; norm_num)
    (by intro r hr; simp only [List.mem_singleton] at hr; subst hr; norm_num)

/-! ## Claim C7 -/

/-- Claim C7 counterexample: with `now = 0` and a one-day window
(`startTime = now - 86400000` ms), a stored row at time `1000` — strictly
later than `now` — is still returned by `getLatestEvents`: the query has no
upper time bound, so returned times are not confined to
`[now - dayCount, now]` as the claim states. -/
theorem eventTimeline_returns_row_after_now :
    getLatestEvents [⟨1000, 50, false, false, "Charging"⟩] (-86400000) 0 =
      [⟨1000, 50, false, "Charging"⟩] ∧ (0:ℚ) < 1000 := by
  constructor
  · norm_num [getLatestEvents, eventRows, dedupEvents, selectAsc, List.filter,
      List.insertionSort, List.orderedInsert, rowLE]
    try simp
  · norm_num

/-- Claim C7 (amended): every entry returned by `getLatestEvents` has a
non-empty event label different from "Stop" and a time strictly greater than
`startTime = now - dayCount` (no upper bound is applied); entries are
ascending by time; consecutive entries never repeat an event label; at most
400 matching rows are considered; and rows with events
`["Charging","Charging","Full","Charging"]` at increasing times yield exactly
the three entries `["Charging","Full","Charging"]`. -/
theorem eventTimeline_filter_dedup :
    (∀ (db : Db) (startTime : ℚ) (e : EventEntry), e ∈ getLatestEvents db startTime 0 →
        e.event ≠ "" ∧ e.event ≠ "Stop" ∧ startTime < e.time) ∧
    (∀ (db : Db) (startTime : ℚ),
        (getLatestEvents db startTime 0).Pairwise
          (fun a b : EventEntry => a.time ≤ b.time)) ∧
    (∀ (db : Db) (startTime : ℚ),
        List.Chain' (fun a b : EventEntry => a.event ≠ b.event)
          (getLatestEvents db startTime 0)) ∧
    (∀ (db : Db) (startTime : ℚ), (getLatestEvents db startTime 0).length ≤ 400) ∧
    (getLatestEvents [⟨10, 90, true, false, "Charging"⟩, ⟨20, 80, true, false, "Charging"⟩,
        ⟨30, 100, true, false, "Full"⟩, ⟨40, 95, true, false, "Charging"⟩] 0 0).map
        EventEntry.event = ["Charging", "Full", "Charging"] := by
  refine ⟨?_, ?_, ?_, ?_, ?_⟩
  · intro db startTime e he
    rcases dedupEvents_mem 0 (eventRows db startTime) none e he with ⟨r, hr, rfl⟩
    rcases eventRows_mem hr with ⟨_, ht, hne1, hne2⟩
    refine ⟨hne1, hne2, ?_⟩
    simpa using ht
  · intro db startTime
    exact dedupEvents_pairwise_time 0 _ none (eventRows_pairwise db startTime)
  · intro db startTime
    exact dedupEvents_chain_event 0 _ none
  · intro db startTime
    exact le_trans (dedupEvents_length 0 _ none) (List.length_take_le _ _)
  · norm_num [getLatestEvents, eventRows, dedupEvents, selectAsc, List.filter,
      List.insertionSort, List.orderedInsert, rowLE]
    try simp
    try norm_num

/-- Concrete instance of the amended claim C7's filtering component, at a
store holding one "Charging" row at time 1000. -/
theorem eventTimeline_filter_dedup_witness :
    (⟨1000, 50, false, "Charging"⟩ : EventEntry).event ≠ "" ∧
    (⟨1000, 50, false, "Charging"⟩ : EventEntry).event ≠ "Stop" ∧
    (0:ℚ) < (⟨1000, 50, false, "Charging"⟩ : EventEntry).time :=
  eventTimeline_filter_dedup.1 [⟨1000, 50, false, false, "Charging"⟩] 0
    ⟨1000, 50, false, "Charging"⟩
    (by
      norm_num [getLatestEvents, eventRows, dedupEvents, selectAsc, List.filter,
        List.insertionSort, List.orderedInsert, rowLE]
      try simp
      try norm_num)

/-! ## Claim C8 -/

/-- Claim C8 counterexample: with `now = 0` and a one-day window
(`startTime = now - 86400000` ms), two discharging rows at times 1000 and
2000 — both strictly later than `now` — are considered, giving average power
18000 instead of the 0 the claim's window `[now - dayCount, now]` (which
contains no rows) would demand: the query has no upper time bound. -/
theorem averagePower_uses_rows_after_now :
    getAveragePower [⟨1000, 10, false, false, ""⟩, ⟨2000, 5, false, false, ""⟩]
      (-86400000) = 18000 ∧ (0:ℚ) < 18000 := by
  constructor
  · norm_num [getAveragePower, dischargeRows, selectAsc, List.filter, List.insertionSort,
      List.orderedInsert, rowLE, apStep, jsRound]
    try simp
    try norm_num
  · norm_num

/-- Claim C8 (amended): `getAveragePower` considers exactly the
`charging = false` rows with time strictly after `startTime = now - dayCount`
(no upper bound), capped at 1000 and ascending; walking consecutive pairs it
accumulates `prev.energy - cur.energy` and `cur.time - prev.time` exactly
when `cur.energy ≤ prev.energy` and `prev.event ≠ "Stop"` (`specSum` /
`specDur` state this accumulation declaratively); it returns
`round(sum * 3600 / duration_in_seconds)` when the sum is positive and `0`
when the sum is zero or fewer than two rows match — in particular a log
containing only `charging = true` rows yields `0`. -/
theorem averagePower_characterization :
    (∀ (db : Db) (startTime : ℚ), (dischargeRows db startTime).length < 2 →
        getAveragePower db startTime = 0) ∧
    (∀ (db : Db) (startTime : ℚ), specSum (dischargeRows db startTime) = 0 →
        getAveragePower db startTime = 0) ∧
    (∀ (db : Db) (startTime : ℚ), 0 < specSum (dischargeRows db startTime) →
        getAveragePower db startTime =
          jsRound ((specSum (dischargeRows db startTime) * 3600) /
            (specDur (dischargeRows db startTime) / 1000))) ∧
    (∀ (db : Db) (startTime : ℚ), (∀ r ∈ db, r.charging = true) →
        getAveragePower db startTime = 0) := by
  refine ⟨?_, ?_, ?_, ?_⟩
  · intro db startTime hlen
    unfold getAveragePower
    split
    · rfl
    · rfl
    · rename_i x r0 q hne heq
      rw [heq] at hlen
      simp only [List.length_cons] at hlen
      exact absurd (List.length_eq_zero.1 (by omega)) fun hq => hne hq
  · intro db startTime hsum
    unfold getAveragePower
    split
    · rfl
    · rfl
    · rename_i x r0 q hne heq
      rcases foldl_apStep_spec q r0 0 0 with ⟨h1, _⟩
      rw [heq] at hsum
      show (if (q.foldl apStep (0, 0, r0)).1 > 0 then _ else _) = _
      rw [h1, zero_add, hsum]
      simp
  · intro db startTime hsum
    unfold getAveragePower
    split
    · rename_i heq
      rw [heq] at hsum
      simp [specSum] at hsum
    · rename_i x heq
      rw [heq] at hsum
      simp [specSum] at hsum
    · rename_i x r0 q hne heq
      rcases foldl_apStep_spec q r0 0 0 with ⟨h1, h2⟩
      rw [heq] at hsum ⊢
      show (if (q.foldl apStep (0, 0, r0)).1 > 0 then
        jsRound ((q.foldl apStep (0, 0, r0)).1 * 3600 /
          ((q.foldl apStep (0, 0, r0)).2.1 / 1000)) else 0) = _
      rw [h1, h2, zero_add, zero_add, if_pos hsum]
  · intro db startTime hall
    have hnil : dischargeRows db startTime = [] := by
      unfold dischargeRows
      rw [selectAsc_eq_nil]
      · rfl
      · intro r hr
        simp [hall r hr]
    unfold getAveragePower
    split
    · rfl
    · rfl
    · rename_i x r0 q hne heq
      rw [hnil] at heq
      exact absurd heq (by simp)

/-- Concrete instance of the amended claim C8's zero case: a store holding
only a `charging = true` row yields average power 0. -/
theorem averagePower_characterization_witness :
    getAveragePower [⟨10, 5, true, false, ""⟩] 0 = 0 :=
  averagePower_characterization.2.2.2 [⟨10, 5, true, false, ""⟩] 0 (by
    intro r hr
    simp only [List.mem_singleton] at hr
    subst hr
    rfl)

/-! ## Claim C6 -/

/-- Claim C6 counterexample: the claim's three preconditions hold (two
in-window rows, last event not "Stop", a next row at t=40 exists), yet the
returned sequence is not the in-window rows with one synthetic row appended:
a row at t=5 precedes the window, so the unconditional start-boundary step
additionally prepends an interpolated sample at t=8, giving four rows
instead of three. -/
theorem windowedSamples_end_extension_not_alone :
    getLatestEntries [⟨5, 50, false, false, ""⟩, ⟨10, 80, false, true, ""⟩,
        ⟨20, 70, false, true, ""⟩, ⟨40, 0, false, false, ""⟩] 8 30 0 =
      [⟨8, 68, false, false, ""⟩, ⟨10, 80, false, true, ""⟩, ⟨20, 70, false, true, ""⟩,
        ⟨30, 35, false, false, ""⟩] ∧
    windowRows [⟨5, 50, false, false, ""⟩, ⟨10, 80, false, true, ""⟩,
        ⟨20, 70, false, true, ""⟩, ⟨40, 0, false, false, ""⟩] 8 30 =
      [⟨10, 80, false, true, ""⟩, ⟨20, 70, false, true, ""⟩] ∧
    (getLatestEntries [⟨5, 50, false, false, ""⟩, ⟨10, 80, false, true, ""⟩,
        ⟨20, 70, false, true, ""⟩, ⟨40, 0, false, false, ""⟩] 8 30 0).length = 4 ∧
    (windowRows [⟨5, 50, false, false, ""⟩, ⟨10, 80, false, true, ""⟩,
        ⟨20, 70, false, true, ""⟩, ⟨40, 0, false, false, ""⟩] 8 30 ++
        ([⟨30, 35, false, false, ""⟩] : List Row)).length = 3 := by
  refine ⟨?_, ?_, ?_, ?_⟩ <;>
  · norm_num [getLatestEntries, windowRows, rowsAfter, rowsBefore, selectAsc, List.filter,
      List.insertionSort, List.orderedInsert, rowLE, convertItemToEntry,
      (by decide : ¬(("" : String) = "Stop"))]
    try simp
    try norm_num

/-- Claim C6 (amended): with at least two in-window rows, last in-window row
`lr` whose event is not "Stop", a next row `nx` after it, and — additionally —
no stored row at or before the window start (so the unconditional
start-boundary step finds no preceding row and prepends nothing), the result
is the in-window rows with exactly one synthetic row appended: its time is
`windowEnd`, its energy is `lr.energy·(1-s) + nx.energy·s` with
`s = (windowEnd - lr.time)/(nx.time - lr.time)`, and its charging, active
and event values are copied unchanged from `nx` — never interpolated. -/
theorem windowedSamples_end_extension
    (db : Db) (startTime endTime : ℚ) (lr nx : Row)
    (hpre : ∀ r ∈ db, startTime < r.time)
    (h2 : 1 < (windowRows db startTime endTime).length)
    (hlast : (windowRows db startTime endTime).getLast? = some lr)
    (hstop : lr.event ≠ "Stop")
    (hnext : (rowsAfter db lr.time).head? = some nx) :
    getLatestEntries db startTime endTime 0 =
      windowRows db startTime endTime ++
        [⟨endTime,
          lr.energy * (1 - (endTime - lr.time) / (nx.time - lr.time)) +
            nx.energy * ((endTime - lr.time) / (nx.time - lr.time)),
          nx.charging, nx.active, nx.event⟩] := by
  have hw : (windowRows db startTime endTime).map (convertItemToEntry 0) =
      windowRows db startTime endTime := map_convertItemToEntry_zero _
  have hwne : windowRows db startTime endTime ≠ [] := by
    intro h
    rw [h] at h2
    simp at h2
  obtain ⟨a, w', haw⟩ := List.exists_cons_of_ne_nil hwne
  have hsorted : (windowRows db startTime endTime).Sorted rowLE := sorted_selectAsc db _
  have hamem : a ∈ windowRows db startTime endTime := by
    rw [haw]
    exact List.mem_cons_self a w'
  have hain := mem_selectAsc.1 hamem
  have ha2 : a.time < endTime := by
    have hp := hain.2
    simp only [Bool.and_eq_true, decide_eq_true_eq] at hp
    exact hp.2
  have hbefore : rowsBefore db a.time = [] := by
    apply selectAsc_eq_nil
    intro r hr
    simp only [decide_eq_false_iff_not, not_lt]
    by_cases hre : r.time < endTime
    · have hrw : r ∈ windowRows db startTime endTime :=
        mem_selectAsc.2 ⟨hr, by simp [hpre r hr, hre]⟩
      rw [haw] at hrw
      rcases List.mem_cons.1 hrw with rfl | hrw1
      · exact le_refl _
      · exact List.rel_of_sorted_cons (haw ▸ hsorted) r hrw1
    · push_neg at hre
      linarith
  simp only [getLatestEntries, hw]
  rw [if_pos h2]
  simp only [hlast]
  rw [if_pos hstop]
  simp only [hnext, convertItemToEntry_zero]
  rw [haw]
  simp only [List.cons_append, List.head?_cons]
  rw [if_pos trivial]
  simp only [hbefore, List.getLast?_nil]

/-- Concrete instance of the amended claim C6: in-window rows at t=10 and
t=20 (energy 60, event ""), next row at t=40 (energy 0, charging, "Charging"),
no row at or before the window start 8; the appended sample sits at the
window end 30 with energy interpolated halfway (30) and flags copied from
the next row. -/
theorem windowedSamples_end_extension_witness :
    getLatestEntries [⟨10, 60, false, true, ""⟩, ⟨20, 60, false, true, ""⟩,
        ⟨40, 0, true, false, "Charging"⟩] 8 30 0 =
      windowRows [⟨10, 60, false, true, ""⟩, ⟨20, 60, false, true, ""⟩,
          ⟨40, 0, true, false, "Charging"⟩] 8 30 ++
        [⟨30,
          (⟨20, 60, false, true, ""⟩ : Row).energy *
              (1 - (30 - (⟨20, 60, false, true, ""⟩ : Row).time) /
                ((⟨40, 0, true, false, "Charging"⟩ : Row).time -
                  (⟨20, 60, false, true, ""⟩ : Row).time)) +
            (⟨40, 0, true, false, "Charging"⟩ : Row).energy *
              ((30 - (⟨20, 60, false, true, ""⟩ : Row).time) /
                ((⟨40, 0, true, false, "Charging"⟩ : Row).time -
                  (⟨20, 60, false, true, ""⟩ : Row).time)),
          (⟨40, 0, true, false, "Charging"⟩ : Row).charging,
          (⟨40, 0, true, false, "Charging"⟩ : Row).active,
          (⟨40, 0, true, false, "Charging"⟩ : Row).event⟩] :=
  windowedSamples_end_extension
    [⟨10, 60, false, true, ""⟩, ⟨20, 60, false, true, ""⟩, ⟨40, 0, true, false, "Charging"⟩]
    8 30 ⟨20, 60, false, true, ""⟩ ⟨40, 0, true, false, "Charging"⟩
    (by
      intro r hr
      simp only [List.mem_cons, List.not_mem_nil, or_false] at hr
      rcases hr with rfl | rfl | rfl <;> norm_num)
    (by norm_num [windowRows, selectAsc, List.filter, List.insertionSort,
      List.orderedInsert, rowLE])
    (by norm_num [windowRows, selectAsc, List.filter, List.insertionSort,
      List.orderedInsert, rowLE])
    (by decide)
    (by norm_num [rowsAfter, selectAsc, List.filter, List.insertionSort,
      List.orderedInsert, rowLE])

/-! ## Claim C9 -/

theorem sqlInsert_fst (db : Db) (r : Row) :
    (sqlInsert db r).1 =
      if db.any (fun x => decide (x.time = r.time)) then db else db ++ [r] := by
  unfold sqlInsert
  split <;> rfl

theorem sqlInsert_fst_pairwise {db : Db} {r : Row}
    (hp : (db.map Row.time).Pairwise (· ≠ ·)) :
    (((sqlInsert db r).1).map Row.time).Pairwise (· ≠ ·) := by
  rw [sqlInsert_fst]
  split
  · exact hp
  · rename_i h
    rw [List.map_append]
    refine List.pairwise_append.2 ⟨hp, by simp, ?_⟩
    intro x hx y hy
    simp only [List.map_cons, List.map_nil, List.mem_singleton] at hy
    subst hy
    rcases List.mem_map.1 hx with ⟨a, ha, rfl⟩
    intro hEq
    exact h (List.any_eq_true.2 ⟨a, ha, by simp [hEq]⟩)

theorem sqlInsert_fst_forall {db : Db} {r : Row} {P : Row → Prop}
    (hdb : ∀ x ∈ db, P x) (hr : P r) : ∀ x ∈ (sqlInsert db r).1, P x := by
  rw [sqlInsert_fst]
  split
  · exact hdb
  · intro x hx
    rcases List.mem_append.1 hx with h1 | h2
    · exact hdb x h1
    · simp only [List.mem_singleton] at h2
      subst h2
      exact hr

theorem sqlUpdateTime_fst_pairwise {db : Db} {oldT newT b : ℚ}
    (hp : (db.map Row.time).Pairwise (· ≠ ·))
    (hb : ∀ x ∈ db, x.time ≤ b) (hlt : b < newT) :
    (((sqlUpdateTime db oldT newT).1).map Row.time).Pairwise (· ≠ ·) := by
  have hmap : ((sqlUpdateTime db oldT newT).1).map Row.time =
      db.map (fun r => if r.time = oldT then newT else r.time) := by
    unfold sqlUpdateTime
    simp only [List.map_map]
    apply List.map_congr_left
    intro r _
    by_cases hc : r.time = oldT <;> simp [hc]
  rw [hmap, List.pairwise_map]
  rw [List.pairwise_map] at hp
  refine List.Pairwise.imp_of_mem ?_ hp
  intro x y hx hy hne
  by_cases h1 : x.time = oldT
  · by_cases h2 : y.time = oldT
    · exact absurd (h1.trans h2.symm) hne
    · rw [if_pos h1, if_neg h2]
      exact fun hEq => absurd hEq.symm (ne_of_lt (lt_of_le_of_lt (hb y hy) hlt))
  · by_cases h2 : y.time = oldT
    · rw [if_neg h1, if_pos h2]
      exact ne_of_lt (lt_of_le_of_lt (hb x hx) hlt)
    · rw [if_neg h1, if_neg h2]
      exact hne

theorem sqlUpdateTime_fst_forall {db : Db} {oldT newT : ℚ} {P : ℚ → Prop}
    (hdb : ∀ x ∈ db, P x.time) (hnew : P newT) :
    ∀ x ∈ (sqlUpdateTime db oldT newT).1, P x.time := by
  intro x hx
  unfold sqlUpdateTime at hx
  simp only [List.mem_map] at hx
  rcases hx with ⟨r, hr, rfl⟩
  by_cases hc : r.time = oldT
  · simp only [if_pos hc]
    exact hnew
  · simp only [if_neg hc]
    exact hdb r hr

theorem step_invBelow (T : ℚ) (s : LogState) (c : Call) (b : ℚ)
    (hInv : InvBelow s b) (hb : b < c.now) : InvBelow (step T s c) c.now := by
  obtain ⟨db, cache⟩ := s
  obtain ⟨hp, hbound⟩ := hInv
  have hboundlt : ∀ x ∈ db, x.time ≤ c.now := fun x hx =>
    le_of_lt (lt_of_le_of_lt (hbound x hx) hb)
  cases cache with
  | none =>
    simp only [step, addOrUpdateEntry]
    rw [if_neg (by simp [addEntry_snd])]
    constructor
    · exact sqlInsert_fst_pairwise hp
    · exact sqlInsert_fst_forall hboundlt (le_refl c.now)
  | some cc =>
    simp only [step, addOrUpdateEntry]
    split
    · rename_i hgap
      have hbf : cc.lastTime + T * 1000 < c.now := by
        have h3 := hgap.2.2
        rw [gt_iff_lt, lt_div_iff₀ (by norm_num : (0:ℚ) < 1000)] at h3
        linarith
      rw [if_neg (by simp [addEntry_snd]), if_neg (by simp [addEntry_snd])]
      rw [InvBelow]
      simp only [addEntry_fst]
      constructor
      · exact sqlInsert_fst_pairwise (sqlInsert_fst_pairwise hp)
      · exact sqlInsert_fst_forall
          (sqlInsert_fst_forall hboundlt (le_of_lt hbf)) (le_refl c.now)
    · split
      · rw [InvBelow]
        constructor
        · exact sqlUpdateTime_fst_pairwise hp hbound hb
        · exact @sqlUpdateTime_fst_forall db cc.lastTime c.now (fun t => t ≤ c.now)
            hboundlt (le_refl c.now)
      · rw [if_neg (by simp [addEntry_snd]), InvBelow]
        simp only [addEntry_fst]
        constructor
        · exact sqlInsert_fst_pairwise hp
        · exact sqlInsert_fst_forall hboundlt (le_refl c.now)

theorem runFold_pairwise (T : ℚ) :
    ∀ (calls : List Call) (s : LogState) (b : ℚ),
      InvBelow s b → List.Chain (· < ·) b (calls.map Call.now) →
      (((calls.foldl (step T) s).db).map Row.time).Pairwise (· ≠ ·)
  | [], s, b, hInv, _ => hInv.1
  | c :: cs, s, b, hInv, hchain => by
    rw [List.map_cons, List.chain_cons] at hchain
    exact runFold_pairwise T cs (step T s c) c.now
      (step_invBelow T s c b hInv hchain.1) hchain.2

/-- Claim C9: timestamp uniqueness.  For every sequence of
`addOrUpdateEntry` calls with strictly increasing `now` values, starting
from the empty store, no two persisted rows share the same `time` — across
plain inserts (the PRIMARY KEY rejects collisions), merge-case timestamp
updates (the fresh `now` exceeds every stored time), and synthesized gap
back-fill rows (`lastTime + T` lies strictly before `now`) alike. -/
theorem recordSample_times_unique (T : ℚ) (calls : List Call)
    (hmono : List.Chain' (· < ·) (calls.map Call.now)) :
    (((runCalls T calls).db).map Row.time).Pairwise (· ≠ ·) := by
  cases calls with
  | nil => simp [runCalls]
  | cons c cs =>
    have h0 : InvBelow ⟨[], none⟩ (c.now - 1) := by
      constructor
      · simp
      · intro r hr
        simp at hr
    have hchain : List.Chain (· < ·) (c.now - 1) ((c :: cs).map Call.now) := by
      rw [List.map_cons, List.chain_cons]
      exact ⟨by linarith, hmono⟩
    exact runFold_pairwise T (c :: cs) ⟨[], none⟩ (c.now - 1) h0 hchain

/-- Concrete instance of claim C9: two calls at times 1000 and 2000. -/
theorem recordSample_times_unique_witness :
    (((runCalls 60 [⟨50, false, false, "", 1000⟩, ⟨40, false, false, "", 2000⟩]).db).map
      Row.time).Pairwise (· ≠ ·) :=
  recordSample_times_unique 60 _ (by
    norm_num [List.chain'_cons, List.chain'_singleton])

end EnergyLog
